import Mathlib

/-!
Shallow embedding of the MOV-to-MP4 converter (`src/mov-to-mp4.py`).

The external transcoding process is modelled by an environment function
`run : List String → ProcResult` standing for `subprocess.Popen` +
`communicate`: a launched process yields a return code plus captured
stdout/stderr text; a launch failure (any Python exception) yields the
string form of the raised error.  Path manipulation mirrors CPython's
`posixpath` (`basename`, `dirname`, `splitext`, `join`).  Progress values
are modelled exactly over `ℚ`.
-/

/-- Result of attempting to run one external process invocation:
either the process completed with a return code and captured output
streams, or the invocation could not be launched at all. -/
inductive ProcResult where
  | completed (returncode : Int) (stdout stderr : String)
  | launchFailure (errMsg : String)
  deriving Repr, DecidableEq

/-- `VideoConverter.get_ffmpeg_params` (src/mov-to-mp4.py:317-325):
dictionary of quality presets, looked up with `params.get(quality,
params["medium"])`, so any unrecognized name falls back to the
"medium" entry.  A total function: no error path exists. -/
def get_ffmpeg_params (quality : String) : List String :=
  if quality = "high" then ["-c:v", "libx264", "-crf", "18", "-c:a", "aac", "-b:a", "192k"]
  else if quality = "medium" then ["-c:v", "libx264", "-crf", "23", "-c:a", "aac", "-b:a", "128k"]
  else if quality = "low" then ["-c:v", "libx264", "-crf", "28", "-c:a", "aac", "-b:a", "96k"]
  else if quality = "custom" then ["-c:v", "libx264", "-crf", "20", "-c:a", "copy"]
  else ["-c:v", "libx264", "-crf", "23", "-c:a", "aac", "-b:a", "128k"]

/-- `VideoConverter.convert_video` (src/mov-to-mp4.py:327-343): builds the
ffmpeg command, runs it via the environment `run`, and maps the result to
a `(success, message)` pair: return code 0 ↦ `(True, "Success")`, nonzero
return code ↦ `(False, stderr)`, launch exception `e` ↦ `(False, str(e))`. -/
def convert_video (run : List String → ProcResult)
    (ffmpeg_path input_path output_path quality : String) : Bool × String :=
  let ffmpeg_params := get_ffmpeg_params quality
  let cmd := [ffmpeg_path, "-i", input_path] ++ ffmpeg_params ++ ["-y", output_path]
  match run cmd with
  | .completed returncode _ stderr =>
      if returncode = 0 then (true, "Success") else (false, stderr)
  | .launchFailure e => (false, e)

/-- Split a character list at its last `'/'`: returns the head part
(including the trailing slash, empty when there is no slash) and the
basename part.  Mirrors `p[:i+1], p[i+1:]` with `i = p.rfind('/')`. -/
def splitPathLast (cs : List Char) : List Char × List Char :=
  let rev := cs.reverse
  ((rev.dropWhile (· ≠ '/')).reverse, (rev.takeWhile (· ≠ '/')).reverse)

/-- `os.path.basename` (posixpath): everything after the last `'/'`. -/
def basename (p : String) : String :=
  String.mk (splitPathLast p.toList).2

/-- `os.path.dirname` (posixpath): `p[:rfind('/')+1]`, with trailing
slashes stripped unless the head consists only of slashes. -/
def dirname (p : String) : String :=
  let head := (splitPathLast p.toList).1
  if head ≠ [] ∧ head.any (· ≠ '/') then
    String.mk ((head.reverse.dropWhile (· = '/')).reverse)
  else String.mk head

/-- Extension split of a basename (no `'/'` inside): splits at the last
`'.'` provided some character strictly before that dot is not itself a
dot (so `".bashrc"` has no extension), as in `posixpath.splitext`. -/
def splitextBase (base : List Char) : List Char × List Char :=
  let rev := base.reverse
  if rev.any (· = '.') then
    let afterDotRev := rev.takeWhile (· ≠ '.')
    let fromDotRev := rev.dropWhile (· ≠ '.')
    let stem := (fromDotRev.drop 1).reverse
    if stem.any (· ≠ '.') then (stem, '.' :: afterDotRev.reverse)
    else (base, [])
  else (base, [])

/-- `os.path.splitext` (posixpath): split the extension off the final
path component; the dot stays with the extension. -/
def splitext (p : String) : String × String :=
  let (dir, base) := splitPathLast p.toList
  let (stem, ext) := splitextBase base
  (String.mk (dir ++ stem), String.mk ext)

/-- Whether a string begins with `'/'` (`b.startswith('/')`). -/
def headIsSlash (s : String) : Bool :=
  match s.toList with
  | '/' :: _ => true
  | _ => false

/-- Whether a string ends with `'/'` (`path.endswith('/')`). -/
def lastIsSlash (s : String) : Bool :=
  match s.toList.reverse with
  | '/' :: _ => true
  | _ => false

/-- `os.path.join` (posixpath, two arguments): an absolute second
argument replaces the first; otherwise a `'/'` separator is inserted
unless the first part is empty or already ends with `'/'`. -/
def joinPath (a b : String) : String :=
  if headIsSlash b then b
  else if a = "" ∨ lastIsSlash a then a ++ b
  else a ++ "/" ++ b

/-- Output-path derivation inside `VideoConverter.conversion_worker`
(src/mov-to-mp4.py:370-381): basename of the input, output directory
override if nonempty (Python truthiness) else the input's own directory,
extension replaced by ".mp4" via `splitext` on the basename. -/
def worker_output_path (output_directory input_path : String) : String :=
  let file_name := basename input_path
  let output_dir := if output_directory ≠ "" then output_directory else dirname input_path
  let input_name := (splitext file_name).1
  joinPath output_dir (input_name ++ ".mp4")

/-- Output-path derivation in `command_line_converter`
(src/mov-to-mp4.py:481-484): `if output_dir:` is Python truthiness, so
only a non-`None`, nonempty directory takes the override branch (join the
directory with the basename's stem + ".mp4"); `None` and the falsy empty
string both fall to `splitext(input_file)[0] + ".mp4"`. -/
def cli_output_path (output_dir : Option String) (input_file : String) : String :=
  match output_dir with
  | some d =>
      if d ≠ "" then joinPath d ((splitext (basename input_file)).1 ++ ".mp4")
      else (splitext input_file).1 ++ ".mp4"
  | none => (splitext input_file).1 ++ ".mp4"

/-- The aggregate a batch hands back: total file count, number of
successful conversions, and the ordered `(file_name, message)` failure
list, as assembled in `conversion_worker` (src/mov-to-mp4.py:362-405). -/
structure BatchResult where
  total : Nat
  successful : Nat
  failures : List (String × String)
  deriving Repr, DecidableEq

/-- Observable trace of one run of `conversion_worker`: the batch result,
the progress values written to `progress_var` in order, and the input
paths passed to `convert_video` in order. -/
structure WorkerTrace where
  result : BatchResult
  progressEvents : List ℚ
  invocations : List String
  deriving Repr, DecidableEq

/-- The `for i, input_path in enumerate(self.selected_files)` loop of
`conversion_worker` (src/mov-to-mp4.py:368-394): `i` is the enumeration
index, `total_files` the length of the full list.  Returns the successful
count, failure list, emitted progress values `((i+1)/total_files)*100`,
and `convert_video` invocations, each in loop order. -/
def worker_loop (run : List String → ProcResult)
    (ffmpeg_path output_directory quality : String) (total_files : Nat) :
    Nat → List String → Nat × List (String × String) × List ℚ × List String
  | _, [] => (0, [], [], [])
  | i, input_path :: rest =>
      let file_name := basename input_path
      let output_path := worker_output_path output_directory input_path
      let res := convert_video run ffmpeg_path input_path output_path quality
      let progress : ℚ := (((i : ℚ) + 1) / (total_files : ℚ)) * 100
      let tail := worker_loop run ffmpeg_path output_directory quality total_files (i + 1) rest
      (if res.1 then tail.1 + 1 else tail.1,
       if res.1 then tail.2.1 else (file_name, res.2) :: tail.2.1,
       progress :: tail.2.2.1,
       input_path :: tail.2.2.2)

/-- `VideoConverter.conversion_worker` (src/mov-to-mp4.py:362-394):
runs the loop over the selected files and packages the batch result. -/
def conversion_worker (run : List String → ProcResult)
    (ffmpeg_path output_directory quality : String)
    (selected_files : List String) : WorkerTrace :=
  let total_files := selected_files.length
  let r := worker_loop run ffmpeg_path output_directory quality total_files 0 selected_files
  ⟨⟨total_files, r.1, r.2.1⟩, r.2.2.1, r.2.2.2⟩

/-- The GUI-side workflow state touched by `start_conversion` and
`conversion_worker`: selected files, output directory override, chosen
quality, the batch-running flag, current progress value, and status
text. -/
structure GuiState where
  selected_files : List String
  output_directory : String
  quality : String
  conversion_in_progress : Bool
  progress : ℚ
  status_text : String
  deriving Repr, DecidableEq

/-- How a call to `start_conversion` resolves: the "No Files Selected"
warning, the "Conversion In Progress" notice, or a batch actually run to
completion with its result. -/
inductive StartOutcome where
  | noFilesNotice
  | inProgressNotice
  | started (result : BatchResult)
  deriving Repr, DecidableEq

/-- `VideoConverter.start_conversion` (src/mov-to-mp4.py:345-360),
with the spawned worker thread run to completion sequentially: empty
selection ⇒ warning and no change; batch already running ⇒ notice and no
change; otherwise the flag is set, the worker runs, and at its end the
worker resets the flag, status text and progress (lines 407-411).
Returns the new state, the outcome, and the converter invocations made. -/
def start_conversion (run : List String → ProcResult) (ffmpeg_path : String)
    (s : GuiState) : GuiState × StartOutcome × List String :=
  if s.selected_files = [] then (s, .noFilesNotice, [])
  else if s.conversion_in_progress then (s, .inProgressNotice, [])
  else
    let t := conversion_worker run ffmpeg_path s.output_directory s.quality s.selected_files
    ({ s with conversion_in_progress := false, progress := 0,
              status_text := "Ready to convert" },
     .started t.result, t.invocations)

/-- The argument-scanning `while` loop of `command_line_converter`
(src/mov-to-mp4.py:428-438) over `sys.argv[1:]`: `--output`/`--quality`
consume the following token as their value when one exists (`i + 1 <
len(sys.argv)`); any other token, including a trailing flag with nothing
after it, is appended to the input-file list. -/
def parse_cli_loop (input_files : List String) (output_dir : Option String)
    (quality : String) : List String → List String × Option String × String
  | [] => (input_files, output_dir, quality)
  | "--output" :: v :: rest => parse_cli_loop input_files (some v) quality rest
  | "--quality" :: v :: rest => parse_cli_loop input_files output_dir v rest
  | a :: rest => parse_cli_loop (input_files ++ [a]) output_dir quality rest

/-- `command_line_converter`'s argument parse (src/mov-to-mp4.py:423-438):
starts from no input files, no output directory and quality "medium". -/
def parse_cli_args (argv : List String) : List String × Option String × String :=
  parse_cli_loop [] none "medium" argv

/-- Whether the scan of this token list ends on a final `--output` or
`--quality` token reached as a fresh token: exactly then would one more
appended token be consumed as that flag's value. -/
def danglingFlag : List String → Bool
  | [] => false
  | ["--output"] => true
  | ["--quality"] => true
  | "--output" :: _ :: rest => danglingFlag rest
  | "--quality" :: _ :: rest => danglingFlag rest
  | _ :: rest => danglingFlag rest

/-- Environment in which every launched process exits with status 0. -/
def run_all_ok : List String → ProcResult := fun _ => .completed 0 "" ""

/-- Environment for the three-file scenario: the invocation whose input
argument (third token of the ffmpeg command) is "/v/b.mov" exits with
status 1 and stderr "frame corrupt"; every other invocation succeeds. -/
def scenario_env : List String → ProcResult := fun cmd =>
  match cmd with
  | _ :: _ :: inp :: _ =>
      if inp = "/v/b.mov" then .completed 1 "" "frame corrupt" else .completed 0 "" ""
  | _ => .launchFailure "unreachable"

/-- A state in which a batch is currently running. -/
def busy_state : GuiState :=
  ⟨["/v/a.mov"], "", "high", true, 50, "Converting: a.mov"⟩

/-- An idle state with no files selected. -/
def idle_empty_state : GuiState :=
  ⟨[], "", "high", false, 0, "Ready to convert"⟩

/-- Per step of the worker loop the successful count and the failure list
grow by exactly one entry between them. -/
theorem worker_loop_count (run : List String → ProcResult) (fp od q : String) (n : Nat) :
    ∀ (l : List String) (i : Nat),
      (worker_loop run fp od q n i l).1 + (worker_loop run fp od q n i l).2.1.length
        = l.length := by
  intro l
  induction l with
  | nil => intro i; simp [worker_loop]
  | cons x xs ih =>
      intro i
      have h := ih (i + 1)
      simp only [worker_loop, List.length_cons]
      cases hb : (convert_video run fp x (worker_output_path od x) q).1 <;>
        simp [hb] <;> omega

/-- The worker loop hands every remaining input path, in order, to
`convert_video`. -/
theorem worker_loop_invocations (run : List String → ProcResult) (fp od q : String) (n : Nat) :
    ∀ (l : List String) (i : Nat), (worker_loop run fp od q n i l).2.2.2 = l := by
  intro l
  induction l with
  | nil => intro i; simp [worker_loop]
  | cons x xs ih => intro i; simp [worker_loop, ih (i + 1)]

/-- The progress values emitted by the worker loop started at index `i`
are `((i + j + 1) / n) * 100` for `j` ranging over the remaining files. -/
theorem worker_loop_progress (run : List String → ProcResult) (fp od q : String) (n : Nat) :
    ∀ (l : List String) (i : Nat),
      (worker_loop run fp od q n i l).2.2.1
        = (List.range l.length).map
            (fun j : ℕ => (((i : ℚ) + (j : ℚ) + 1) / (n : ℚ)) * 100) := by
  intro l
  induction l with
  | nil => intro i; simp [worker_loop]
  | cons x xs ih =>
      intro i
      simp only [worker_loop, List.length_cons]
      rw [ih (i + 1), List.range_succ_eq_map, List.map_cons, List.map_map]
      congr 1
      · push_cast; ring
      · congr 1
        funext j
        simp only [Function.comp_apply]
        push_cast
        ring

/-- `takeWhile` passes over a prefix whose elements all satisfy the
predicate. -/
lemma takeWhile_append_of_all (p : Char → Bool) (l1 l2 : List Char)
    (h : ∀ x ∈ l1, p x = true) :
    (l1 ++ l2).takeWhile p = l1 ++ l2.takeWhile p := by
  induction l1 with
  | nil => simp
  | cons a as ih =>
      simp only [List.cons_append, List.takeWhile_cons, h a (by simp), if_true]
      rw [ih fun x hx => h x (by simp [hx])]

/-- `dropWhile` removes a prefix whose elements all satisfy the
predicate. -/
lemma dropWhile_append_of_all (p : Char → Bool) (l1 l2 : List Char)
    (h : ∀ x ∈ l1, p x = true) :
    (l1 ++ l2).dropWhile p = l2.dropWhile p := by
  induction l1 with
  | nil => simp
  | cons a as ih =>
      simp only [List.cons_append, List.dropWhile_cons, h a (by simp), if_true]
      exact ih fun x hx => h x (by simp [hx])

/-- `splitextBase` splits a basename of the form `stem.ext` at the
separating dot whenever the extension is dot-free and the stem holds at
least one non-dot character (the `posixpath.splitext` condition). -/
lemma splitextBase_append_ext (stem ext : List Char)
    (hstem : stem.any (· ≠ '.') = true)
    (hext : ∀ c ∈ ext, c ≠ '.') :
    splitextBase (stem ++ '.' :: ext) = (stem, '.' :: ext) := by
  have hextb : ∀ x ∈ ext.reverse, (fun c => decide (c ≠ '.')) x = true := by
    intro x hx
    simp only [List.mem_reverse] at hx
    simp [hext x hx]
  have hrev : (stem ++ '.' :: ext).reverse = ext.reverse ++ '.' :: stem.reverse := by
    simp
  have htake : (ext.reverse ++ '.' :: stem.reverse).takeWhile (· ≠ '.') = ext.reverse := by
    rw [takeWhile_append_of_all _ _ _ hextb]
    simp [List.takeWhile_cons]
  have hdrop : (ext.reverse ++ '.' :: stem.reverse).dropWhile (· ≠ '.') = '.' :: stem.reverse := by
    rw [dropWhile_append_of_all _ _ _ hextb]
    simp [List.dropWhile_cons]
  simp only [splitextBase, hrev, htake, hdrop]
  simp [List.any_append, hstem]
  simpa using List.any_eq_true.mp hstem

/-- Splitting a slash-free character list at its last slash leaves the
whole list as the basename part. -/
lemma splitPathLast_no_slash (cs : List Char) (h : ∀ c ∈ cs, c ≠ '/') :
    splitPathLast cs = ([], cs) := by
  have h1 : cs.reverse.dropWhile (· ≠ '/') = [] := by
    rw [List.dropWhile_eq_nil_iff]
    intro x hx
    simp only [List.mem_reverse] at hx
    simp [h x hx]
  have h2 : cs.reverse.takeWhile (· ≠ '/') = cs.reverse := by
    rw [List.takeWhile_eq_self_iff]
    intro x hx
    simp only [List.mem_reverse] at hx
    simp [h x hx]
  simp only [splitPathLast, Prod.mk.injEq, h1, h2, List.reverse_nil, List.reverse_reverse]

/-- The basename of any path contains no slash. -/
lemma basename_no_slash (p : String) : ∀ c ∈ (basename p).toList, c ≠ '/' := by
  intro c hc
  have hc' : c ∈ (p.toList.reverse.takeWhile (· ≠ '/')).reverse := hc
  rw [List.mem_reverse] at hc'
  have := List.mem_takeWhile_imp hc'
  simpa using this

/-- `splitext` on a basename of the form `stem.ext` (dot-free `ext`,
stem with a non-dot character) yields the stem and the dotted
extension. -/
lemma splitext_basename (p : String) (stem ext : List Char)
    (hb : (basename p).toList = stem ++ '.' :: ext)
    (hstem : stem.any (· ≠ '.') = true)
    (hext : ∀ c ∈ ext, c ≠ '.') :
    splitext (basename p) = (String.mk stem, String.mk ('.' :: ext)) := by
  have hns : ∀ c ∈ stem ++ '.' :: ext, c ≠ '/' := by
    rw [← hb]; exact basename_no_slash p
  have hsp : splitPathLast (basename p).toList = ([], stem ++ '.' :: ext) := by
    rw [hb]; exact splitPathLast_no_slash _ hns
  simp only [splitext, hsp, splitextBase_append_ext stem ext hstem hext]
  simp

/-- `splitext` on a full path whose basename has the form `stem.ext`
keeps the directory part and strips the dotted extension. -/
lemma splitext_full (p : String) (stem ext : List Char)
    (hb : (basename p).toList = stem ++ '.' :: ext)
    (hstem : stem.any (· ≠ '.') = true)
    (hext : ∀ c ∈ ext, c ≠ '.') :
    splitext p = (String.mk ((splitPathLast p.toList).1 ++ stem), String.mk ('.' :: ext)) := by
  have hb' : (splitPathLast p.toList).2 = stem ++ '.' :: ext := hb
  obtain ⟨dp, hdp⟩ : ∃ dp, splitPathLast p.toList = (dp, stem ++ '.' :: ext) :=
    ⟨(splitPathLast p.toList).1, by rw [← hb']⟩
  simp only [splitext, hdp, splitextBase_append_ext stem ext hstem hext]

/-- A token that is not `--output`/`--quality` is appended to the input
list and the scan moves on by one. -/
lemma parse_cli_loop_cons_other (a : String) (ha : a ≠ "--output")
    (hb : a ≠ "--quality") (acc : List String) (od : Option String) (q : String)
    (rest : List String) :
    parse_cli_loop acc od q (a :: rest) = parse_cli_loop (acc ++ [a]) od q rest := by
  cases rest with
  | nil => simp [parse_cli_loop]
  | cons x xs =>
      rw [parse_cli_loop.eq_def]
      split <;> simp_all

/-- A leading token that is not `--output`/`--quality` does not affect
whether the scan ends on a dangling flag. -/
lemma danglingFlag_cons_other (a : String) (ha : a ≠ "--output")
    (hb : a ≠ "--quality") (rest : List String) :
    danglingFlag (a :: rest) = danglingFlag rest := by
  cases rest with
  | nil =>
      rw [danglingFlag.eq_def]
      split <;> simp_all [danglingFlag]
  | cons x xs =>
      rw [danglingFlag.eq_def]
      split <;> simp_all

/-- When the scan of `p` does not end on a dangling flag, a flag token
appended after `p` is reached as a fresh token and lands in the input
list, with the rest of the parse unchanged. -/
lemma parse_cli_loop_append_last (f : String)
    (hf : f = "--output" ∨ f = "--quality") :
    ∀ (p : List String) (acc : List String) (od : Option String) (q : String),
      danglingFlag p = false →
      parse_cli_loop acc od q (p ++ [f])
        = ((parse_cli_loop acc od q p).1 ++ [f], (parse_cli_loop acc od q p).2) := by
  intro p
  induction p using danglingFlag.induct with
  | case1 =>
      intro acc od q _
      rcases hf with hf | hf <;> subst hf <;> simp [parse_cli_loop]
  | case2 =>
      intro acc od q hd
      simp [danglingFlag] at hd
  | case3 =>
      intro acc od q hd
      simp [danglingFlag] at hd
  | case4 v rest ih =>
      intro acc od q hd
      simp only [danglingFlag] at hd
      simp only [List.cons_append, parse_cli_loop]
      exact ih acc (some v) q hd
  | case5 v rest ih =>
      intro acc od q hd
      simp only [danglingFlag] at hd
      simp only [List.cons_append, parse_cli_loop]
      exact ih acc od v hd
  | case6 a rest h1 h2 h3 h4 ih =>
      intro acc od q hd
      have ha : a ≠ "--output" := by
        intro h
        cases rest with
        | nil => exact h1 h rfl
        | cons x xs => exact h3 x xs h rfl
      have hb : a ≠ "--quality" := by
        intro h
        cases rest with
        | nil => exact h2 h rfl
        | cons x xs => exact h4 x xs h rfl
      rw [danglingFlag_cons_other a ha hb] at hd
      simp only [List.cons_append]
      rw [parse_cli_loop_cons_other a ha hb, parse_cli_loop_cons_other a ha hb]
      exact ih (acc ++ [a]) od q hd

/-- C1: for every batch run of `conversion_worker` over a non-empty input
list, at batch completion the successful-conversion count plus the number
of entries in the failure list equals the total number of input files. -/
theorem conversion_worker_counts_partition (run : List String → ProcResult)
    (fp od q : String) (files : List String) (_h : files ≠ []) :
    (conversion_worker run fp od q files).result.successful
      + (conversion_worker run fp od q files).result.failures.length
      = (conversion_worker run fp od q files).result.total := by
  simp only [conversion_worker]
  exact worker_loop_count run fp od q files.length files 0

/-- Witness for C1 on a concrete one-file batch. -/
theorem conversion_worker_counts_partition_witness :
    (["/v/a.mov"] : List String) ≠ []
      ∧ (conversion_worker run_all_ok "ffmpeg" "" "high" ["/v/a.mov"]).result.successful
          + (conversion_worker run_all_ok "ffmpeg" "" "high" ["/v/a.mov"]).result.failures.length
          = (conversion_worker run_all_ok "ffmpeg" "" "high" ["/v/a.mov"]).result.total :=
  ⟨by decide,
   conversion_worker_counts_partition run_all_ok "ffmpeg" "" "high" ["/v/a.mov"] (by decide)⟩

/-- C2: over a non-empty list of `n` files, the progress value emitted
after completing the k-th file (index `k` from 0) is `((k+1)/n) * 100`;
the emitted sequence is strictly increasing and ends at exactly 100. -/
theorem conversion_worker_progress_spec (run : List String → ProcResult)
    (fp od q : String) (files : List String) (h : files ≠ []) :
    (conversion_worker run fp od q files).progressEvents
        = (List.range files.length).map
            (fun k : ℕ => (((k : ℚ) + 1) / ((files.length : ℕ) : ℚ)) * 100)
      ∧ (conversion_worker run fp od q files).progressEvents.Chain' (· < ·)
      ∧ (conversion_worker run fp od q files).progressEvents.getLast? = some 100 := by
  have hn : 0 < files.length := List.length_pos.mpr h
  have hn' : (0 : ℚ) < (files.length : ℚ) := by exact_mod_cast hn
  have hmap : (conversion_worker run fp od q files).progressEvents
      = (List.range files.length).map
          (fun k : ℕ => (((k : ℚ) + 1) / ((files.length : ℕ) : ℚ)) * 100) := by
    simp only [conversion_worker]
    rw [worker_loop_progress run fp od q files.length files 0]
    congr 1
    funext j
    push_cast
    ring
  refine ⟨hmap, ?_, ?_⟩
  · rw [hmap]
    apply List.Pairwise.chain'
    rw [List.pairwise_map]
    refine (List.pairwise_lt_range _).imp ?_
    intro a b hab
    have hc : (a : ℚ) < (b : ℚ) := by exact_mod_cast hab
    gcongr
  · rw [hmap]
    obtain ⟨m, hm⟩ : ∃ m, files.length = m + 1 := ⟨files.length - 1, by omega⟩
    rw [hm, List.range_succ, List.map_append]
    simp only [List.map_cons, List.map_nil, List.getLast?_concat]
    congr 1
    have hz : ((m : ℚ) + 1) ≠ 0 := by positivity
    push_cast
    rw [div_self hz, one_mul]

/-- Witness for C2 on a concrete one-file batch. -/
theorem conversion_worker_progress_spec_witness :
    (["/v/a.mov"] : List String) ≠ []
      ∧ ((conversion_worker run_all_ok "ffmpeg" "" "high" ["/v/a.mov"]).progressEvents
            = (List.range (["/v/a.mov"] : List String).length).map
                (fun k : ℕ =>
                  (((k : ℚ) + 1) / (((["/v/a.mov"] : List String).length : ℕ) : ℚ)) * 100)
          ∧ (conversion_worker run_all_ok "ffmpeg" "" "high"
                ["/v/a.mov"]).progressEvents.Chain' (· < ·)
          ∧ (conversion_worker run_all_ok "ffmpeg" "" "high"
                ["/v/a.mov"]).progressEvents.getLast? = some 100) :=
  ⟨by decide,
   conversion_worker_progress_spec run_all_ok "ffmpeg" "" "high" ["/v/a.mov"] (by decide)⟩

/-- C3: any quality name outside {high, medium, low, custom} yields
exactly the option list of "medium"; `get_ffmpeg_params` is a total
function, so no error is possible. -/
theorem get_ffmpeg_params_unknown_fallback (q : String)
    (h1 : q ≠ "high") (h2 : q ≠ "medium") (h3 : q ≠ "low") (h4 : q ≠ "custom") :
    get_ffmpeg_params q = get_ffmpeg_params "medium" := by
  unfold get_ffmpeg_params
  rw [if_neg h1, if_neg h2, if_neg h3, if_neg h4]
  decide

/-- Witness for C3 at the unrecognized name "ultra". -/
theorem get_ffmpeg_params_unknown_fallback_witness :
    ("ultra" ≠ "high" ∧ "ultra" ≠ "medium" ∧ "ultra" ≠ "low" ∧ "ultra" ≠ "custom")
      ∧ get_ffmpeg_params "ultra" = get_ffmpeg_params "medium" :=
  ⟨by decide,
   get_ffmpeg_params_unknown_fallback "ultra" (by decide) (by decide) (by decide) (by decide)⟩

/-- C4: `convert_video` maps a zero exit status to success, a nonzero
exit status to failure with the captured stderr text as the message, and
a launch failure to failure with the string form of the error. -/
theorem convert_video_outcome_cases (fp inp out q so se e : String) (rc : Int) :
    convert_video (fun _ => ProcResult.completed 0 so se) fp inp out q = (true, "Success")
      ∧ (rc ≠ 0 →
          convert_video (fun _ => ProcResult.completed rc so se) fp inp out q = (false, se))
      ∧ convert_video (fun _ => ProcResult.launchFailure e) fp inp out q = (false, e) :=
  ⟨by simp [convert_video], fun h => by simp [convert_video, h], by simp [convert_video]⟩

/-- Witness for C4 at exit status 1. -/
theorem convert_video_outcome_cases_witness :
    (1 : Int) ≠ 0
      ∧ convert_video (fun _ => ProcResult.completed 1 "" "err") "ffmpeg" "i.mov" "o.mp4" "high"
          = (false, "err") :=
  ⟨by decide,
   (convert_video_outcome_cases "ffmpeg" "i.mov" "o.mp4" "high" "" "err" "x" 1).2.1 (by decide)⟩

/-- C5: for every input path whose basename has the form `stem.ext`
(any extension, whatever its casing), the computed output file name is
the stem followed by the lower-case ".mp4", placed in the override
directory when one is set and alongside the input otherwise — stated for
the worker derivation, the CLI derivation with a truthy override, and
the CLI derivation without one — together with the claim's two concrete
examples in both derivations, and the falsy empty-string override, which
behaves like no override. -/
theorem output_path_replaces_extension :
    (∀ (od p : String) (stem ext : List Char),
        (basename p).toList = stem ++ '.' :: ext →
        stem.any (· ≠ '.') = true →
        (∀ c ∈ ext, c ≠ '.') →
        worker_output_path od p
          = joinPath (if od ≠ "" then od else dirname p) (String.mk stem ++ ".mp4"))
      ∧ (∀ (d p : String) (stem ext : List Char),
        d ≠ "" →
        (basename p).toList = stem ++ '.' :: ext →
        stem.any (· ≠ '.') = true →
        (∀ c ∈ ext, c ≠ '.') →
        cli_output_path (some d) p = joinPath d (String.mk stem ++ ".mp4"))
      ∧ (∀ (p : String) (stem ext : List Char),
        (basename p).toList = stem ++ '.' :: ext →
        stem.any (· ≠ '.') = true →
        (∀ c ∈ ext, c ≠ '.') →
        cli_output_path none p
          = String.mk ((splitPathLast p.toList).1 ++ stem) ++ ".mp4")
      ∧ worker_output_path "" "clip.MOV" = "clip.mp4"
      ∧ worker_output_path "/out" "/a/b/clip.mov" = "/out/clip.mp4"
      ∧ cli_output_path none "clip.MOV" = "clip.mp4"
      ∧ cli_output_path (some "/out") "/a/b/clip.mov" = "/out/clip.mp4"
      ∧ cli_output_path (some "") "/a/b/clip.mov" = "/a/b/clip.mp4" := by
  refine ⟨?_, ?_, ?_, by decide, by decide, by decide, by decide, by decide⟩
  · intro od p stem ext hb hstem hext
    simp only [worker_output_path, splitext_basename p stem ext hb hstem hext]
  · intro d p stem ext hd hb hstem hext
    simp only [cli_output_path, splitext_basename p stem ext hb hstem hext]
    rw [if_pos hd]
  · intro p stem ext hb hstem hext
    simp only [cli_output_path, splitext_full p stem ext hb hstem hext]

/-- Witness for C5: the worker-path conjunct applied at the claim's own
"clip.MOV" example, with its hypotheses discharged concretely. -/
theorem output_path_replaces_extension_witness :
    ((basename "clip.MOV").toList = ['c', 'l', 'i', 'p'] ++ '.' :: ['M', 'O', 'V'])
      ∧ (['c', 'l', 'i', 'p'].any (· ≠ '.') = true)
      ∧ (∀ c ∈ (['M', 'O', 'V'] : List Char), c ≠ '.')
      ∧ worker_output_path "" "clip.MOV"
          = joinPath (if ("" : String) ≠ "" then "" else dirname "clip.MOV")
              (String.mk ['c', 'l', 'i', 'p'] ++ ".mp4") :=
  ⟨by decide, by decide, by decide,
   output_path_replaces_extension.1 "" "clip.MOV" ['c', 'l', 'i', 'p'] ['M', 'O', 'V']
     (by decide) (by decide) (by decide)⟩

/-- C6: a failure never aborts the batch: `convert_video` is invoked
exactly once per input path in original order for every environment, and
in the three-file scenario where only the second file's process exits
nonzero the batch reports 2 successes and the single failure entry names
file 2 with its stderr text. -/
theorem conversion_worker_never_aborts :
    (∀ (run : List String → ProcResult) (fp od q : String) (files : List String),
        (conversion_worker run fp od q files).invocations = files)
      ∧ (conversion_worker scenario_env "ffmpeg" "" "high"
            ["/v/a.mov", "/v/b.mov", "/v/c.mov"]).result
          = ⟨3, 2, [("b.mov", "frame corrupt")]⟩ := by
  constructor
  · intro run fp od q files
    simp only [conversion_worker]
    exact worker_loop_invocations run fp od q files.length files 0
  · decide

/-- C7: with the batch-running flag set, `start_conversion` leaves the
state untouched, performs no converter invocation, and resolves to one of
the two rejection notices rather than starting a batch. -/
theorem start_conversion_busy_rejected (run : List String → ProcResult)
    (fp : String) (s : GuiState) (h : s.conversion_in_progress = true) :
    (start_conversion run fp s).1 = s
      ∧ (start_conversion run fp s).2.2 = []
      ∧ ((start_conversion run fp s).2.1 = StartOutcome.noFilesNotice
          ∨ (start_conversion run fp s).2.1 = StartOutcome.inProgressNotice) := by
  by_cases he : s.selected_files = [] <;> simp [start_conversion, he, h]

/-- Witness for C7 on a concrete busy state. -/
theorem start_conversion_busy_rejected_witness :
    busy_state.conversion_in_progress = true
      ∧ ((start_conversion run_all_ok "ffmpeg" busy_state).1 = busy_state
          ∧ (start_conversion run_all_ok "ffmpeg" busy_state).2.2 = []
          ∧ ((start_conversion run_all_ok "ffmpeg" busy_state).2.1
                = StartOutcome.noFilesNotice
              ∨ (start_conversion run_all_ok "ffmpeg" busy_state).2.1
                = StartOutcome.inProgressNotice)) :=
  ⟨by decide, start_conversion_busy_rejected run_all_ok "ffmpeg" busy_state (by decide)⟩

/-- C8: with an empty selection, `start_conversion` resolves to the
"no files selected" warning, changes no state (in particular the
batch-running flag keeps its value), and performs zero invocations. -/
theorem start_conversion_empty_rejected (run : List String → ProcResult)
    (fp : String) (s : GuiState) (h : s.selected_files = []) :
    start_conversion run fp s = (s, StartOutcome.noFilesNotice, []) := by
  simp [start_conversion, h]

/-- Witness for C8 on a concrete idle state with no files. -/
theorem start_conversion_empty_rejected_witness :
    idle_empty_state.selected_files = []
      ∧ start_conversion run_all_ok "ffmpeg" idle_empty_state
          = (idle_empty_state, StartOutcome.noFilesNotice, []) :=
  ⟨by decide, start_conversion_empty_rejected run_all_ok "ffmpeg" idle_empty_state (by decide)⟩

/-- C9: every recognized preset yields an ordered token list with a video
codec selection (`-c:v libx264`), a quality factor (`-crf`), and an audio
codec selection (`-c:a`); high/medium/low re-encode audio as aac with a
bitrate (`-b:a`), while "custom" passes audio through (`-c:a copy`) and
carries no audio-bitrate option. -/
theorem get_ffmpeg_params_preset_shapes :
    (∃ crf br, get_ffmpeg_params "high"
        = ["-c:v", "libx264", "-crf", crf, "-c:a", "aac", "-b:a", br])
      ∧ (∃ crf br, get_ffmpeg_params "medium"
          = ["-c:v", "libx264", "-crf", crf, "-c:a", "aac", "-b:a", br])
      ∧ (∃ crf br, get_ffmpeg_params "low"
          = ["-c:v", "libx264", "-crf", crf, "-c:a", "aac", "-b:a", br])
      ∧ get_ffmpeg_params "custom" = ["-c:v", "libx264", "-crf", "20", "-c:a", "copy"]
      ∧ "-b:a" ∉ get_ffmpeg_params "custom" :=
  ⟨⟨"18", "192k", by decide⟩, ⟨"23", "128k", by decide⟩, ⟨"28", "96k", by decide⟩,
   by decide, by decide⟩

/-- C10 counterexample: with argv tail `["--output", "--output"]` the
final `--output` token is the last argument with no value after it, yet
it is consumed as the value of the preceding `--output` flag: the parsed
input-file list is empty, so the token was not appended to it. -/
theorem parse_cli_trailing_flag_consumed :
    parse_cli_args ["--output", "--output"] = ([], some "--output", "medium")
      ∧ "--output" ∉ (parse_cli_args ["--output", "--output"]).1 := by
  decide

/-- C10 (amended): a final `--output`/`--quality` token is appended to
the input-file list, with the rest of the parse unchanged, provided the
scan of the preceding arguments does not end on a dangling flag that
consumes it as a value. -/
theorem parse_cli_trailing_flag_appended (argv : List String) (f : String)
    (hf : f = "--output" ∨ f = "--quality") (hd : danglingFlag argv = false) :
    (parse_cli_args (argv ++ [f])).1 = (parse_cli_args argv).1 ++ [f]
      ∧ (parse_cli_args (argv ++ [f])).2 = (parse_cli_args argv).2 := by
  unfold parse_cli_args
  rw [parse_cli_loop_append_last f hf argv [] none "medium" hd]
  exact ⟨rfl, rfl⟩

/-- Witness for the amended C10: a trailing `--output` after one ordinary
input token is appended to the input list. -/
theorem parse_cli_trailing_flag_appended_witness :
    ("--output" = "--output" ∨ "--output" = "--quality")
      ∧ danglingFlag ["a.mov"] = false
      ∧ ((parse_cli_args (["a.mov"] ++ ["--output"])).1
            = (parse_cli_args ["a.mov"]).1 ++ ["--output"]
          ∧ (parse_cli_args (["a.mov"] ++ ["--output"])).2 = (parse_cli_args ["a.mov"]).2) :=
  ⟨Or.inl rfl, by decide,
   parse_cli_trailing_flag_appended ["a.mov"] "--output" (Or.inl rfl) (by decide)⟩
